import Mathlib

/-!
# Verification of the testwright session cache and authentication flow

Shallow embedding of `src/utils/sessionCache.ts`, the cache-relevant parts of
`src/helpers/auth.ts`, and `mergeTestRunResults` from the reporter
(`src/reporter`), together with proofs of the specified properties.

Conventions of the embedding:
* Times are epoch milliseconds, modelled as `Int`.
* JavaScript runtime values that flow through the cache code are modelled by
  `JSValue`; `undefined` is a first-class value, and the `TypeError` thrown by
  a property access on `null`/`undefined` is modelled by `Except JSError`.
* The filesystem is a map from absolute path to `FileContent`; `JSON.parse`
  distinguishes only "parses to a JSON value" from "throws", so file content
  is either a parsed JSON value or an unparseable raw string.
-/

namespace Testwright

/-- The `Environment` union type: `"dev" | "staging" | "prod"`
(from `src/types/app.ts`). -/
inductive Environment where
  | dev
  | staging
  | prod
deriving DecidableEq, Repr

/-- The string a template literal interpolates an `Environment` as. -/
def Environment.toStr : Environment → String
  | .dev => "dev"
  | .staging => "staging"
  | .prod => "prod"

/-- Model of the JavaScript strings that flow through the session cache.
`Date.prototype.toISOString` renders an epoch-milliseconds value as an
ISO-8601 string and `new Date(string)` inverts it; we keep such timestamp
strings abstractly as their epoch value (`iso t`).  Every other string is
`raw s`; `new Date` on it is modelled as producing an Invalid Date, which is
the behaviour for strings that do not parse as timestamps. -/
inductive JSString where
  | iso (t : Int)
  | raw (s : String)
deriving DecidableEq, Repr

/-- JavaScript values reachable in the embedded code: `undefined`, `null`,
booleans, numbers, strings, arrays and plain objects (ordered field lists,
as `JSON.parse` produces). -/
inductive JSValue where
  | jsUndefined
  | null
  | bool (b : Bool)
  | num (n : Int)
  | str (s : JSString)
  | arr (elems : List JSValue)
  | obj (fields : List (String × JSValue))
deriving Repr

/-- JavaScript truthiness of a value (`if (x)`):
`undefined`, `null`, `false`, `0` and `""` are falsy, everything else
(including empty arrays and objects) is truthy. -/
def JSValue.truthy : JSValue → Bool
  | .jsUndefined => false
  | .null => false
  | .bool b => b
  | .num n => n != 0
  | .str (.raw s) => s != ""
  | .str (.iso _) => true
  | .arr _ => true
  | .obj _ => true

/-- The `TypeError` raised by a property access on `null` or `undefined`. -/
inductive JSError where
  | typeError
deriving DecidableEq, Repr

/-- First match wins, as in a JavaScript object (duplicate keys cannot
survive `JSON.parse`, which keeps the last, so parsed objects have unique
keys; on such lists first match is the only match). -/
def jsLookupField : List (String × JSValue) → String → Option JSValue
  | [], _ => none
  | (k, v) :: rest, key => if k = key then some v else jsLookupField rest key

/-- Property access `base.key`: throws `TypeError` when `base` is `null` or
`undefined`; yields the field on objects (or `undefined` when absent); yields
`undefined` on primitives and arrays (none of which has a `metadata`,
`expiresAt` or `storageState` own property). -/
def jsGetField (base : JSValue) (key : String) : Except JSError JSValue :=
  match base with
  | .jsUndefined => .error .typeError
  | .null => .error .typeError
  | .obj fields =>
      match jsLookupField fields key with
      | some v => .ok v
      | none => .ok .jsUndefined
  | _ => .ok .jsUndefined

/-- Optional-chained access `base?.key` followed by `?? null`, collapsed to
`Option`: `none` models a `null` result.  Used by `getSessionMetadata` and
`getStorageState`, which never throw. -/
def jsOptField (base : JSValue) (key : String) : Option JSValue :=
  match base with
  | .jsUndefined => none
  | .null => none
  | .obj fields =>
      match jsLookupField fields key with
      | some .null => none
      | some .jsUndefined => none
      | some v => some v
      | none => none
  | _ => none

/-- `new Date(x)` as a time value: `some t` is a valid date at epoch-ms `t`,
`none` is an Invalid Date (time value `NaN`).  `undefined` gives Invalid
Date, `null` coerces to `0`, booleans and numbers coerce numerically, a
timestamp string parses to its value, any other string or structured value
gives Invalid Date. -/
def newDate : JSValue → Option Int
  | .jsUndefined => none
  | .null => some 0
  | .bool b => some (if b then 1 else 0)
  | .num n => some n
  | .str (.iso t) => some t
  | .str (.raw _) => none
  | .arr _ => none
  | .obj _ => none

/-- JavaScript `a > b` on two dates, `b` a valid date at time `now`:
converts both to numbers; any comparison involving `NaN` is `false`. -/
def dateGT (d : Option Int) (now : Int) : Bool :=
  match d with
  | none => false
  | some t => now < t

/-- JavaScript `a <= b` on two dates, `b` a valid date at time `now`:
`false` whenever `a` is an Invalid Date. -/
def dateLE (d : Option Int) (now : Int) : Bool :=
  match d with
  | none => false
  | some t => t ≤ now

/-- Content of a file, as far as `JSON.parse` can tell: either text that
parses to a JSON value, or text that `JSON.parse` throws on (`corrupt`;
this includes the empty file, since `""` is not valid JSON). -/
inductive FileContent where
  | json (v : JSValue)
  | corrupt (raw : String)
deriving Repr

/-- The filesystem, as a map from path to file content.  `none` is an absent
file (reads fail with `ENOENT`). -/
def FS : Type := String → Option FileContent

/-- The empty filesystem: every read fails with `ENOENT`. -/
def FS.empty : FS := fun _ => Option.none

/-- Point update of the filesystem (a completed `writeFile`). -/
def FS.write (fs : FS) (path : String) (c : FileContent) : FS :=
  fun p => if p = path then some c else fs p

/-- `rename(src, dst)`: the content moves from `src` to `dst` atomically. -/
def FS.rename (fs : FS) (src dst : String) : FS :=
  fun p => if p = dst then fs src else if p = src then none else fs p

/-- `unlink(path)`. -/
def FS.remove (fs : FS) (path : String) : FS :=
  fun p => if p = path then none else fs p

/-- Default cache directory for session files (`DEFAULT_CACHE_DIR`). -/
def DEFAULT_CACHE_DIR : String := ".auth"

/-- Default session TTL: 24 hours in milliseconds (`DEFAULT_TTL`). -/
def DEFAULT_TTL : Int := 24 * 60 * 60 * 1000

/-- The filename part of `getSessionFilePath`:
`` `${userId}_${domain}_${environment}.json` ``. -/
def sessionFileName (userId domain : String) (environment : Environment) : String :=
  userId ++ "_" ++ domain ++ "_" ++ environment.toStr ++ ".json"

/-- Split a character list at every `/`, keeping empty segments (the
segment view `path.normalize` works on). -/
def splitSeg : List Char → List (List Char)
  | [] => [[]]
  | c :: rest =>
      if c = '/' then [] :: splitSeg rest
      else
        match splitSeg rest with
        | s :: tail => (c :: s) :: tail
        | [] => [[c]]

/-- Effect of a `..` segment on the resolved-segment stack: pop a real
previous segment; keep accumulating `..` when the path is relative
(`allowAboveRoot`) and drop the `..` when it is absolute. -/
def normStepDotDot (allowAboveRoot : Bool) : List (List Char) → List (List Char)
  | [] => if allowAboveRoot then [['.', '.']] else []
  | top :: rest =>
      if top = ['.', '.'] then
        (if allowAboveRoot then ['.', '.'] :: (top :: rest) else top :: rest)
      else rest

/-- One step of Node's `normalizeString`: skip empty and `.` segments,
resolve `..`, push everything else.  The stack is kept reversed (most
recent segment first). -/
def normStep (allowAboveRoot : Bool)
    (stack : List (List Char)) (seg : List Char) : List (List Char) :=
  if seg = [] ∨ seg = ['.'] then stack
  else if seg = ['.', '.'] then normStepDotDot allowAboveRoot stack
  else seg :: stack

/-- Join the resolved segments back with `/`. -/
def renderSegs : List (List Char) → List Char
  | [] => []
  | [s] => s
  | s :: rest => s ++ '/' :: renderSegs rest

/-- Rendering of `path.posix.normalize`'s result from the resolved
segments, the absolute-path flag and the trailing-slash flag. -/
def normRender (abs trailing : Bool) (segs : List (List Char)) : String :=
  if renderSegs segs = [] then
    (if abs then "/" else if trailing then "./" else ".")
  else
    String.mk ((if abs then ['/'] else []) ++ renderSegs segs ++
      (if trailing then ['/'] else []))

/-- `path.posix.normalize`: resolve `.` and `..` segments and collapse
repeated separators, preserving a leading `/` and a trailing separator. -/
def normalizePath (p : String) : String :=
  if p.data = [] then "."
  else
    normRender (decide (p.data.head? = some '/'))
      (decide (p.data.getLast? = some '/'))
      (((splitSeg p.data).foldl
          (normStep (!decide (p.data.head? = some '/'))) []).reverse)

/-- `path.join(dir, file)` (POSIX): concatenate the non-empty arguments
with `/` and normalize the result; with no non-empty argument the result
is `.`. -/
def pathJoin (dir file : String) : String :=
  if dir = "" then
    (if file = "" then "." else normalizePath file)
  else if file = "" then normalizePath dir
  else normalizePath (dir ++ "/" ++ file)

/-- `getSessionFilePath(userId, domain, environment, cacheDir = ".auth")`
(`src/utils/sessionCache.ts:68`). -/
def getSessionFilePath (userId domain : String) (environment : Environment)
    (cacheDir : String := DEFAULT_CACHE_DIR) : String :=
  pathJoin cacheDir (sessionFileName userId domain environment)

/-- `readSessionFile` (`src/utils/sessionCache.ts:88`): read the file and
`JSON.parse` it, returning `null` (here `none`) on any failure — the `catch`
swallows a missing file, an unreadable file and a parse error alike.  The
`as SessionFile` cast is unchecked, so on success the result is whatever
JSON value the file held. -/
def readSessionFile : Option FileContent → Option JSValue
  | some (.json v) => some v
  | _ => none

/-- `isSessionValid` (`src/utils/sessionCache.ts:108`), at current time
`now`.  `readSessionFile` failure gives `false`; a falsy parsed value gives
`false` (`if (!sessionFile)`); otherwise the code evaluates
`new Date(sessionFile.metadata.expiresAt) > new Date()`, whose property
accesses can throw a `TypeError` when `sessionFile.metadata` is
`undefined`/`null`. -/
def isSessionValid (fs : FS) (userId domain : String) (environment : Environment)
    (now : Int) (cacheDir : String := DEFAULT_CACHE_DIR) : Except JSError Bool :=
  let sessionPath := getSessionFilePath userId domain environment cacheDir
  match readSessionFile (fs sessionPath) with
  | none => .ok false
  | some v =>
      if !v.truthy then .ok false
      else do
        let meta ← jsGetField v "metadata"
        let exp ← jsGetField meta "expiresAt"
        pure (dateGT (newDate exp) now)

/-- The content-level part of `getSessionMetadata`
(`src/utils/sessionCache.ts:278`): `sessionFile?.metadata ?? null` on the
outcome of `readSessionFile`. -/
def getSessionMetadataVal (c : Option FileContent) : Option JSValue :=
  match readSessionFile c with
  | none => none
  | some v => jsOptField v "metadata"

/-- The content-level part of `getStorageState`
(`src/utils/sessionCache.ts:161`): `sessionFile?.storageState ?? null` on
the outcome of `readSessionFile`. -/
def getStorageStateVal (c : Option FileContent) : Option JSValue :=
  match readSessionFile c with
  | none => none
  | some v => jsOptField v "storageState"

/-- The fields of a `TestUser` (`src/types/user.ts`) that the session cache
and the login flow consume: `saveSession` reads `user.id`, the login form
reads `user.email` and `getUserPassword` reads `user.password` (falling back
to a shared default).  The remaining fields (name, type, tags, scope) are
never read by the embedded code. -/
structure TestUser where
  id : String
  email : String
  password : Option String := none

/-- `SessionOptions` (`src/types/config.ts`): optional TTL in milliseconds
and optional cache directory. -/
structure SessionOptions where
  ttl : Option Int := none
  cacheDir : Option String := none

/-- `options?.cacheDir ?? DEFAULT_CACHE_DIR`. -/
def optCacheDir (options : Option SessionOptions) : String :=
  (options.bind (·.cacheDir)).getD DEFAULT_CACHE_DIR

/-- `options?.ttl ?? DEFAULT_TTL`. -/
def optTtl (options : Option SessionOptions) : Int :=
  (options.bind (·.ttl)).getD DEFAULT_TTL

/-- One filesystem operation issued by `saveSession`, kept as a trace so
that atomicity can be stated about every intermediate state. -/
inductive FsOp where
  | mkdirRec (dir : String)
  | write (path : String) (c : FileContent)
  | rename (src dst : String)

/-- Effect of one operation on the file map (`mkdir` creates a directory
and changes no file's content). -/
def FsOp.apply (fs : FS) : FsOp → FS
  | .mkdirRec _ => fs
  | .write p c => fs.write p c
  | .rename s d => fs.rename s d

/-- Apply a trace of filesystem operations in order. -/
def applyOps (fs : FS) : List FsOp → FS
  | [] => fs
  | op :: ops => applyOps (op.apply fs) ops

/-- The `metadata` object `saveSession` builds
(`src/utils/sessionCache.ts:197`): `createdAt = now.toISOString()`,
`expiresAt = new Date(now.getTime() + ttl).toISOString()`. -/
def sessionMetadataJson (userId domain : String) (environment : Environment)
    (createdAt expiresAt : Int) : JSValue :=
  .obj [("userId", .str (.raw userId)),
        ("domain", .str (.raw domain)),
        ("environment", .str (.raw environment.toStr)),
        ("createdAt", .str (.iso createdAt)),
        ("expiresAt", .str (.iso expiresAt))]

/-- The complete `SessionFile` object `saveSession` serializes
(`src/utils/sessionCache.ts:196`). -/
def sessionFileJson (metadata storageState : JSValue) : JSValue :=
  .obj [("metadata", metadata), ("storageState", storageState)]

/-- The trace of filesystem operations `saveSession` performs
(`src/utils/sessionCache.ts:181`): ensure the cache directory, write the
serialized record to `sessionPath + ".tmp"`, rename the temp path onto the
session path.  `JSON.stringify` followed by `JSON.parse` reproduces the same
value, so the written content is the record itself.  The `storageState`
argument is the opaque storage-state object being persisted. -/
def saveSessionOps (user : TestUser) (domain : String) (environment : Environment)
    (storageState : JSValue) (options : Option SessionOptions) (now : Int) :
    List FsOp :=
  let cacheDir := optCacheDir options
  let ttl := optTtl options
  let sessionPath := getSessionFilePath user.id domain environment cacheDir
  let content := sessionFileJson
    (sessionMetadataJson user.id domain environment now (now + ttl)) storageState
  [.mkdirRec cacheDir,
   .write (sessionPath ++ ".tmp") (.json content),
   .rename (sessionPath ++ ".tmp") sessionPath]

/-- `saveSession` (`src/utils/sessionCache.ts:181`) at current time `now`:
the resulting filesystem and the returned session path. -/
def saveSession (fs : FS) (user : TestUser) (domain : String)
    (environment : Environment) (storageState : JSValue)
    (options : Option SessionOptions) (now : Int) : FS × String :=
  (applyOps fs (saveSessionOps user domain environment storageState options now),
   getSessionFilePath user.id domain environment (optCacheDir options))

/-- `clearSession` (`src/utils/sessionCache.ts:226`): unlink the one session
file; a missing file (`ENOENT`) is ignored, which on the file map is just
the identity. -/
def clearSession (fs : FS) (userId domain : String) (environment : Environment)
    (options : Option SessionOptions) : FS :=
  fs.remove (getSessionFilePath userId domain environment (optCacheDir options))

/-- A directory listing: the cache directory's entries, filename to content.
A real directory has pairwise-distinct names, which theorems assume where
they need it. -/
def Dir : Type := List (String × FileContent)

/-- Content of the named entry (first match; names are distinct in a real
directory). -/
def Dir.lookup (d : Dir) (name : String) : Option FileContent :=
  match d with
  | [] => none
  | (k, c) :: rest => if k = name then some c else Dir.lookup rest name

/-- `unlink` of one name inside the directory. -/
def Dir.eraseName (d : Dir) (name : String) : Dir :=
  d.filter (fun e => e.1 ≠ name)

/-- Property access used by `clearExpiredSessions` on the already
truthiness-checked `metadata` value (`metadata.expiresAt`); a truthy base is
never `null`/`undefined`, so the access cannot throw. -/
def jsFieldD (base : JSValue) (key : String) : JSValue :=
  match base with
  | .obj fields => (jsLookupField fields key).getD .jsUndefined
  | _ => .jsUndefined

/-- The loop-body condition of `clearExpiredSessions`
(`src/utils/sessionCache.ts:338`):
`metadata && new Date(metadata.expiresAt) <= now`. -/
def expiredHere (c : Option FileContent) (now : Int) : Bool :=
  match getSessionMetadataVal c with
  | none => false
  | some m => m.truthy && dateLE (newDate (jsFieldD m "expiresAt")) now

/-- The `for` loop of `clearExpiredSessions`
(`src/utils/sessionCache.ts:334`): for each listed name in order, read the
file's metadata from the current directory state; if expired, unlink it and
bump the counter. -/
def sweepNames (now : Int) : Dir → List String → Dir × Nat
  | dir, [] => (dir, 0)
  | dir, n :: ns =>
      if expiredHere (dir.lookup n) now then
        let r := sweepNames now (dir.eraseName n) ns
        (r.1, r.2 + 1)
      else
        sweepNames now dir ns

/-- `f.endsWith(".json")`, computed on the character list (a string ends
with a suffix iff its character list does; the host `String.endsWith` is
byte-position based, which the kernel cannot evaluate). -/
def strEndsWith (s suffix : String) : Bool :=
  suffix.data.isSuffixOf s.data

/-- `clearExpiredSessions` (`src/utils/sessionCache.ts:323`) on the cache
directory's listing at current time `now`: `readdir`, keep the `.json`
names, then sweep.  Returns the remaining directory and the count of
sessions cleared. -/
def clearExpiredSessions (dir : Dir) (now : Int) : Dir × Nat :=
  sweepNames now dir ((dir.map Prod.fst).filter (fun f => strEndsWith f ".json"))

/-- The `sameSite` union of a cookie: `"Strict" | "Lax" | "None"`
(`src/utils/sessionCache.ts:42`). -/
inductive SameSite where
  | strict
  | lax
  | none
deriving DecidableEq, Repr

/-- A cookie of the Playwright `StorageState`
(`src/utils/sessionCache.ts:34`).  `expires` is a numeric epoch value. -/
structure Cookie where
  name : String
  value : String
  domain : String
  path : String
  expires : Int
  httpOnly : Bool
  secure : Bool
  sameSite : SameSite
deriving DecidableEq, Repr

/-- One `localStorage` entry (`src/utils/sessionCache.ts:46`). -/
structure LocalStorageEntry where
  name : String
  value : String
deriving DecidableEq, Repr

/-- Per-origin state (`src/utils/sessionCache.ts:44`). -/
structure OriginState where
  origin : String
  localStorage : List LocalStorageEntry
deriving DecidableEq, Repr

/-- The Playwright `StorageState` structure (`src/utils/sessionCache.ts:33`). -/
structure StorageState where
  cookies : List Cookie
  origins : List OriginState
deriving DecidableEq, Repr

/-- JSON value of a `sameSite` tag. -/
def SameSite.toJson : SameSite → JSValue
  | .strict => .str (.raw "Strict")
  | .lax => .str (.raw "Lax")
  | .none => .str (.raw "None")

/-- JSON object a cookie serializes to. -/
def Cookie.toJson (c : Cookie) : JSValue :=
  .obj [("name", .str (.raw c.name)),
        ("value", .str (.raw c.value)),
        ("domain", .str (.raw c.domain)),
        ("path", .str (.raw c.path)),
        ("expires", .num c.expires),
        ("httpOnly", .bool c.httpOnly),
        ("secure", .bool c.secure),
        ("sameSite", c.sameSite.toJson)]

/-- JSON object a `localStorage` entry serializes to. -/
def LocalStorageEntry.toJson (e : LocalStorageEntry) : JSValue :=
  .obj [("name", .str (.raw e.name)), ("value", .str (.raw e.value))]

/-- JSON object a per-origin state serializes to. -/
def OriginState.toJson (o : OriginState) : JSValue :=
  .obj [("origin", .str (.raw o.origin)),
        ("localStorage", .arr (o.localStorage.map LocalStorageEntry.toJson))]

/-- JSON object a whole `StorageState` serializes to — the value
`JSON.stringify` writes and `JSON.parse` reads back. -/
def StorageState.toJson (s : StorageState) : JSValue :=
  .obj [("cookies", .arr (s.cookies.map Cookie.toJson)),
        ("origins", .arr (s.origins.map OriginState.toJson))]

/-- The session-cache effects of `loginToApp` (`src/helpers/auth.ts:172`),
with the caller-resolved `domain`, `environment` and `skipSessionCache`, at
current time `now`.  Navigation and form interaction touch only the browser,
so the filesystem effects are exactly:

* cache-hit branch (`src/helpers/auth.ts:190`–`206`):
  `await context.storageState({ path: sessionPath })` — Playwright's
  `storageState` API **saves** the context's current storage state to the
  given path (it returns the state, and when `path` is supplied writes it to
  that file; loading state is done elsewhere, at context creation).
  `ctxState` is the storage-state object of `page.context()` at that moment;
* login branch: `saveSession` of `postLoginState`, the context's
  storage-state object after the fresh login, unless caching is skipped.

Neither branch of the source passes `SessionOptions`, so defaults apply.
Returns the updated filesystem and whether a fresh login was performed. -/
def loginToApp (fs : FS) (ctxState postLoginState : JSValue) (user : TestUser)
    (domain : String) (environment : Environment) (skipSessionCache : Bool)
    (now : Int) : Except JSError (FS × Bool) := do
  let sessionPath := getSessionFilePath user.id domain environment
  if skipSessionCache then
    return (fs, true)
  else
    let hasValidSession ← isSessionValid fs user.id domain environment now
    if hasValidSession then
      return (fs.write sessionPath (.json ctxState), false)
    else
      return ((saveSession fs user domain environment postLoginState .none now).1,
              true)

/-- The session-cache effects of `startAuthenticatedSession`
(`src/helpers/auth.ts:258`): on a cache hit it `readFile`s the session file,
parses it and applies the cookies to the context — all reads, no filesystem
writes; otherwise it opens a page and delegates to `loginToApp`. -/
def startAuthenticatedSession (fs : FS) (ctxState postLoginState : JSValue)
    (user : TestUser) (domain : String) (environment : Environment)
    (skipSessionCache : Bool) (now : Int) : Except JSError (FS × Bool) := do
  if skipSessionCache then
    loginToApp fs ctxState postLoginState user domain environment
      skipSessionCache now
  else
    let hasValidSession ← isSessionValid fs user.id domain environment now
    if hasValidSession then
      return (fs, false)
    else
      loginToApp fs ctxState postLoginState user domain environment
        skipSessionCache now

/-- A test status, the domain of `statusPriority`
(`src/reporter`, `mergeTestRunResults`). -/
inductive TestStatus where
  | passed
  | failed
  | skipped
deriving DecidableEq, Repr

/-- `statusPriority = { failed: 0, skipped: 1, passed: 2 }`. -/
def statusPriority : TestStatus → Nat
  | .failed => 0
  | .skipped => 1
  | .passed => 2

/-- A `TestCaseResult` (`src/types/testCase.ts`, as built by
`generateTestRunResult`): identifier, status and duration always present,
the remaining fields only when they have values. -/
structure TestCaseResult where
  testCaseId : String
  status : TestStatus
  duration : Int
  error : Option String := Option.none
  stackTrace : Option String := Option.none
  retries : Option Int := Option.none
  screenshots : Option (List String) := Option.none
deriving DecidableEq, Repr

/-- A `TestRunResult` (`src/types/testCase.ts`): run metadata plus the list
of per-test-case results. -/
structure TestRunResult where
  runId : String
  timestamp : String
  environment : Environment
  domain : String
  app : String
  results : List TestCaseResult
deriving DecidableEq, Repr

/-- The `Map<string, TestCaseResult>` of `mergeTestRunResults`, with
JavaScript `Map` semantics: insertion order is preserved and `set` on an
existing key replaces the value in place. -/
def ResultMap : Type := List (String × TestCaseResult)

/-- `map.get(key)`. -/
def ResultMap.get (m : ResultMap) (key : String) : Option TestCaseResult :=
  match m with
  | [] => Option.none
  | (k, v) :: rest => if k = key then some v else ResultMap.get rest key

/-- `map.set(key, value)`: replace in place when the key exists, else append. -/
def ResultMap.set (m : ResultMap) (key : String) (v : TestCaseResult) : ResultMap :=
  match m with
  | [] => [(key, v)]
  | (k, w) :: rest =>
      if k = key then (key, v) :: rest else (k, w) :: ResultMap.set rest key v

/-- The loop body of the deduplication in `mergeTestRunResults`
(`src/reporter`, lines 305–316): first occurrence inserts; a later
occurrence replaces only when its status has strictly lower priority
(worse). -/
def mergeStep (m : ResultMap) (result : TestCaseResult) : ResultMap :=
  match m.get result.testCaseId with
  | Option.none => m.set result.testCaseId result
  | some existing =>
      if statusPriority result.status < statusPriority existing.status then
        m.set result.testCaseId result
      else m

/-- `mergeTestRunResults` (`src/reporter`, lines 283–326).  The empty-input
branch calls `generateRunId()` and `new Date().toISOString()`, modelled by
the `freshRunId` and `freshTimestamp` parameters; otherwise the first run's
metadata is kept, all runs' results are concatenated and deduplicated by
test case ID with worst status winning. -/
def mergeTestRunResults (freshRunId freshTimestamp : String)
    (runs : List TestRunResult) : TestRunResult :=
  match runs with
  | [] =>
      { runId := freshRunId, timestamp := freshTimestamp, environment := .dev,
        domain := "unknown", app := "unknown", results := [] }
  | first :: _ =>
      let allResults := runs.foldl (fun acc run => acc ++ run.results) []
      let resultMap := allResults.foldl mergeStep []
      { runId := first.runId, timestamp := first.timestamp,
        environment := first.environment, domain := first.domain,
        app := first.app, results := resultMap.map Prod.snd }

/-! ## Session file paths (claim C1) -/

/-- Splitting a character list at a separator that occurs in neither left
part is unambiguous. -/
lemma append_sep_inj {sep : Char} :
    ∀ {a₁ a₂ b₁ b₂ : List Char}, sep ∉ a₁ → sep ∉ a₂ →
      a₁ ++ sep :: b₁ = a₂ ++ sep :: b₂ → a₁ = a₂ ∧ b₁ = b₂ := by
  intro a₁
  induction a₁ with
  | nil =>
    intro a₂ b₁ b₂ _ h2 h
    cases a₂ with
    | nil => simpa using h
    | cons c cs =>
      simp only [List.nil_append, List.cons_append, List.cons.injEq] at h
      exact absurd (h.1 ▸ List.mem_cons_self c cs) h2
  | cons c cs ih =>
    intro a₂ b₁ b₂ h1 h2 h
    cases a₂ with
    | nil =>
      simp only [List.nil_append, List.cons_append, List.cons.injEq] at h
      exact absurd (h.1.symm ▸ List.mem_cons_self c cs) h1
    | cons d ds =>
      simp only [List.cons_append, List.cons.injEq] at h
      obtain ⟨hcd, hrest⟩ := h
      have hr := ih (fun hm => h1 (List.mem_cons_of_mem _ hm))
        (fun hm => h2 (List.mem_cons_of_mem _ hm)) hrest
      exact ⟨by rw [hcd, hr.1], hr.2⟩

/-- The three environment names followed by the `.json` suffix are pairwise
distinct character lists. -/
lemma env_tail_inj (e₁ e₂ : Environment)
    (h : e₁.toStr.data ++ (".json" : String).data
       = e₂.toStr.data ++ (".json" : String).data) : e₁ = e₂ := by
  cases e₁ <;> cases e₂ <;> first
    | rfl
    | exact absurd h (by decide)

/-- The character list of a session filename, with the two `_` separators
exposed. -/
lemma sessionFileName_data (u d : String) (e : Environment) :
    (sessionFileName u d e).data
      = u.data ++ '_' :: (d.data ++ '_' ::
          (e.toStr.data ++ ['.', 'j', 's', 'o', 'n'])) := by
  simp [sessionFileName, String.data_append, List.append_assoc,
    List.singleton_append]

/-- `sessionFileName` is injective when the `userId`s contain no `_`: the
first `_` isolates `userId`, and from the right the fixed environment-plus-
`.json` suffix (which contains no `_`) isolates the environment, leaving
`domain` — which may itself contain underscores — determined in between. -/
lemma sessionFileName_inj {u₁ d₁ u₂ d₂ : String} {e₁ e₂ : Environment}
    (hu₁ : '_' ∉ u₁.data) (hu₂ : '_' ∉ u₂.data)
    (h : sessionFileName u₁ d₁ e₁ = sessionFileName u₂ d₂ e₂) :
    u₁ = u₂ ∧ d₁ = d₂ ∧ e₁ = e₂ := by
  have hd := congrArg String.data h
  rw [sessionFileName_data, sessionFileName_data] at hd
  obtain ⟨hu, hrest⟩ := append_sep_inj hu₁ hu₂ hd
  have hrev : (e₁.toStr.data ++ ['.', 'j', 's', 'o', 'n']).reverse
        ++ '_' :: d₁.data.reverse
      = (e₂.toStr.data ++ ['.', 'j', 's', 'o', 'n']).reverse
        ++ '_' :: d₂.data.reverse := by
    have hr := congrArg List.reverse hrest
    simpa [List.reverse_append, List.append_assoc] using hr
  have hs₁ : '_' ∉ (e₁.toStr.data ++ ['.', 'j', 's', 'o', 'n']).reverse := by
    cases e₁ <;> decide
  have hs₂ : '_' ∉ (e₂.toStr.data ++ ['.', 'j', 's', 'o', 'n']).reverse := by
    cases e₂ <;> decide
  obtain ⟨hX, hdd⟩ := append_sep_inj hs₁ hs₂ hrev
  refine ⟨String.ext hu, String.ext (List.reverse_injective hdd), ?_⟩
  exact env_tail_inj _ _ (List.reverse_injective hX)

/-- `splitSeg` never returns the empty list of segments. -/
lemma splitSeg_ne_nil (l : List Char) : splitSeg l ≠ [] := by
  cases l with
  | nil => simp [splitSeg]
  | cons c rest =>
    by_cases hc : c = '/'
    · simp [splitSeg, hc]
    · rcases h : splitSeg rest with _ | ⟨s, tail⟩ <;> simp [splitSeg, hc, h]

/-- Splitting distributes over a separator between two parts. -/
lemma splitSeg_append (a b : List Char) :
    splitSeg (a ++ '/' :: b) = splitSeg a ++ splitSeg b := by
  induction a with
  | nil => simp [splitSeg]
  | cons c t ih =>
    by_cases hc : c = '/'
    · simp [splitSeg, hc, ih]
    · rcases h : splitSeg t with _ | ⟨s, tail⟩
      · exact absurd h (splitSeg_ne_nil t)
      · simp [splitSeg, hc, ih, h]

/-- A separator-free list is one single segment. -/
lemma splitSeg_no_sep (l : List Char) (h : '/' ∉ l) : splitSeg l = [l] := by
  induction l with
  | nil => rfl
  | cons c t ih =>
    have hc : ¬ c = '/' := fun hh => h (hh ▸ List.mem_cons_self c t)
    have ht : '/' ∉ t := fun hm => h (List.mem_cons_of_mem _ hm)
    simp [splitSeg, hc, ih ht]

/-- Rendering a non-empty segment list with one more segment appended. -/
lemma renderSegs_append_singleton (xs : List (List Char)) (y : List Char)
    (h : xs ≠ []) :
    renderSegs (xs ++ [y]) = renderSegs xs ++ '/' :: y := by
  induction xs with
  | nil => exact absurd rfl h
  | cons s t ih =>
    cases t with
    | nil => simp [renderSegs]
    | cons s2 t2 =>
      rw [show ((s :: s2 :: t2) ++ [y]) = s :: ((s2 :: t2) ++ [y]) from rfl]
      rw [show renderSegs (s :: ((s2 :: t2) ++ [y]))
          = s ++ '/' :: renderSegs ((s2 :: t2) ++ [y]) from rfl]
      rw [ih (by simp)]
      simp [renderSegs]

/-- `normStep` only ever pushes non-empty segments. -/
lemma foldl_normStep_nonempty (aar : Bool) (segs : List (List Char)) :
    ∀ stack : List (List Char), (∀ x ∈ stack, x ≠ []) →
      ∀ x ∈ segs.foldl (normStep aar) stack, x ≠ [] := by
  induction segs with
  | nil => intro stack hs x hx; exact hs x hx
  | cons seg rest ih =>
    intro stack hs
    refine ih (normStep aar stack seg) ?_
    intro x hx
    simp only [normStep] at hx
    by_cases h1 : seg = [] ∨ seg = ['.']
    · rw [if_pos h1] at hx; exact hs x hx
    · rw [if_neg h1] at hx
      by_cases h2 : seg = ['.', '.']
      · rw [if_pos h2] at hx
        rcases stack with _ | ⟨top, restS⟩
        · rcases aar with _ | _ <;> simp_all [normStepDotDot]
        · simp only [normStepDotDot] at hx
          by_cases h3 : top = ['.', '.']
          · rw [if_pos h3] at hx
            rcases aar with _ | _
            · exact hs x (by simpa using hx)
            · have hx2 : x = ['.', '.'] ∨ x ∈ top :: restS := by simpa using hx
              rcases hx2 with rfl | hx'
              · simp
              · exact hs x hx'
          · rw [if_neg h3] at hx
            exact hs x (List.mem_cons_of_mem _ hx)
      · rw [if_neg h2] at hx
        rcases List.mem_cons.mp hx with rfl | hx'
        · exact fun hh => h1 (Or.inl hh)
        · exact hs x hx'

/-- For a stack of non-empty segments, the rendering is empty iff the stack
is. -/
lemma renderSegs_eq_nil_iff (R : List (List Char)) (h : ∀ x ∈ R, x ≠ []) :
    renderSegs R = [] ↔ R = [] := by
  cases R with
  | nil => simp [renderSegs]
  | cons s t =>
    cases t with
    | nil =>
      simp only [renderSegs]
      exact ⟨fun hh => absurd hh (h s (by simp)), fun hh => by cases hh⟩
    | cons s2 t2 =>
      rw [show renderSegs (s :: s2 :: t2) = s ++ '/' :: renderSegs (s2 :: t2) from rfl]
      simp

/-- The last element of a list with a separated non-empty suffix. -/
lemma getLast?_append_sep (D X : List Char) (hX : X ≠ []) :
    (D ++ '/' :: X).getLast? = X.getLast? := by
  rw [List.getLast?_append]
  rw [show ('/' :: X) = ['/'] ++ X from rfl, List.getLast?_append]
  cases hx : X.getLast? with
  | none => exact absurd (List.getLast?_eq_none_iff.mp hx) hX
  | some y => rfl

/-- The prefix Node's `join(dir, ·)` puts in front of a clean single-segment
filename: the normalized directory part followed by a separator (or nothing,
when the directory part normalizes away). -/
def joinPrefix (dir : String) : List Char :=
  (if decide (dir.data.head? = some '/') then ['/'] else []) ++
    (if (((splitSeg dir.data).foldl
          (normStep (!decide (dir.data.head? = some '/'))) []).reverse) = [] then []
     else renderSegs (((splitSeg dir.data).foldl
          (normStep (!decide (dir.data.head? = some '/'))) []).reverse) ++ ['/'])

/-- A single-segment filename (non-empty, separator-free, not `.` or `..`)
survives `path.join` literally: the result is a prefix depending only on
`dir`, followed by the filename. -/
lemma pathJoin_data (dir : String) (hdir : dir ≠ "") (f : String)
    (h1 : f.data ≠ []) (h2 : '/' ∉ f.data)
    (h3 : f.data ≠ ['.']) (h4 : f.data ≠ ['.', '.']) :
    (pathJoin dir f).data = joinPrefix dir ++ f.data := by
  have hf : f ≠ "" := fun hh => h1 (by simp [hh])
  have hdd : dir.data ≠ [] := fun hh => hdir (String.ext hh)
  rw [pathJoin, if_neg hdir, if_neg hf]
  have hpdata : (dir ++ "/" ++ f).data = dir.data ++ '/' :: f.data := by
    simp [String.data_append, List.append_assoc, List.singleton_append]
  rw [normalizePath, hpdata]
  rw [if_neg (by simp)]
  have hhead : (dir.data ++ '/' :: f.data).head? = dir.data.head? := by
    cases hD : dir.data with
    | nil => exact absurd hD hdd
    | cons c t => rfl
  rw [hhead]
  rw [getLast?_append_sep _ _ h1]
  have htr : decide (f.data.getLast? = some '/') = false :=
    decide_eq_false (fun hh => h2 (List.mem_of_mem_getLast? hh))
  rw [htr]
  rw [splitSeg_append, splitSeg_no_sep _ h2, List.foldl_append]
  simp only [List.foldl_cons, List.foldl_nil]
  have hstep : ∀ (aar : Bool) (stack : List (List Char)),
      normStep aar stack f.data = f.data :: stack := by
    intro aar stack
    simp only [normStep]
    rw [if_neg (by simp [h1, h3]), if_neg h4]
  rw [hstep, List.reverse_cons, normRender]
  have hstack := foldl_normStep_nonempty
    (!decide (dir.data.head? = some '/')) (splitSeg dir.data) [] (by simp)
  have hrev : ∀ x ∈ (((splitSeg dir.data).foldl
      (normStep (!decide (dir.data.head? = some '/'))) []).reverse), x ≠ [] := by
    intro x hx
    exact hstack x (List.mem_reverse.mp hx)
  by_cases hRnil : (((splitSeg dir.data).foldl
      (normStep (!decide (dir.data.head? = some '/'))) []).reverse) = []
  · rw [hRnil]
    rw [show renderSegs ([] ++ [f.data]) = f.data from rfl]
    rw [if_neg h1]
    simp [joinPrefix, hRnil]
  · rw [renderSegs_append_singleton _ _ hRnil]
    rw [if_neg (by simp)]
    have hrender : renderSegs (((splitSeg dir.data).foldl
        (normStep (!decide (dir.data.head? = some '/'))) []).reverse) ≠ [] := by
      rw [Ne, renderSegs_eq_nil_iff _ hrev]
      exact hRnil
    simp [joinPrefix, hRnil, hrender, List.append_assoc]

/-- A clean single-segment filename normalizes to itself. -/
lemma normalizePath_clean (f : String) (h1 : f.data ≠ []) (h2 : '/' ∉ f.data)
    (h3 : f.data ≠ ['.']) (h4 : f.data ≠ ['.', '.']) :
    normalizePath f = f := by
  rw [normalizePath, if_neg h1]
  have habs : decide (f.data.head? = some '/') = false := by
    apply decide_eq_false
    intro hh
    cases hF : f.data with
    | nil => exact h1 hF
    | cons c t =>
      rw [hF] at hh
      have : c = '/' := by simpa using hh
      exact h2 (by rw [hF, this]; exact List.mem_cons_self _ _)
  have htr : decide (f.data.getLast? = some '/') = false :=
    decide_eq_false (fun hh => h2 (List.mem_of_mem_getLast? hh))
  rw [habs, htr, splitSeg_no_sep _ h2]
  simp only [List.foldl_cons, List.foldl_nil]
  rw [show normStep (!false) [] f.data = [f.data] from by
    simp only [normStep]
    rw [if_neg (by simp [h1, h3]), if_neg h4]]
  rw [show ([f.data] : List (List Char)).reverse = [f.data] from rfl]
  rw [normRender]
  rw [show renderSegs [f.data] = f.data from rfl]
  rw [if_neg h1]
  simp

/-- For a fixed `cacheDir`, `pathJoin` is injective on clean single-segment
filenames. -/
lemma pathJoin_inj_clean (dir : String) {f₁ f₂ : String}
    (a1 : f₁.data ≠ []) (a2 : '/' ∉ f₁.data)
    (a3 : f₁.data ≠ ['.']) (a4 : f₁.data ≠ ['.', '.'])
    (b1 : f₂.data ≠ []) (b2 : '/' ∉ f₂.data)
    (b3 : f₂.data ≠ ['.']) (b4 : f₂.data ≠ ['.', '.'])
    (h : pathJoin dir f₁ = pathJoin dir f₂) : f₁ = f₂ := by
  by_cases hdir : dir = ""
  · have hf1 : f₁ ≠ "" := fun hh => a1 (by simp [hh])
    have hf2 : f₂ ≠ "" := fun hh => b1 (by simp [hh])
    rw [hdir, pathJoin, pathJoin, if_pos rfl, if_pos rfl, if_neg hf1, if_neg hf2,
      normalizePath_clean f₁ a1 a2 a3 a4, normalizePath_clean f₂ b1 b2 b3 b4] at h
    exact h
  · have hd := congrArg String.data h
    rw [pathJoin_data dir hdir f₁ a1 a2 a3 a4,
      pathJoin_data dir hdir f₂ b1 b2 b3 b4] at hd
    exact String.ext (List.append_cancel_left hd)

/-- A session filename is a clean single segment once `userId` and `domain`
contain no separator: it contains `_` (so it is non-empty and distinct from
`.` and `..`) and none of its parts contains `/`. -/
lemma sessionFileName_clean (u d : String) (e : Environment)
    (hu : '/' ∉ u.data) (hd : '/' ∉ d.data) :
    (sessionFileName u d e).data ≠ [] ∧ '/' ∉ (sessionFileName u d e).data ∧
    (sessionFileName u d e).data ≠ ['.'] ∧
    (sessionFileName u d e).data ≠ ['.', '.'] := by
  have hmem : '_' ∈ (sessionFileName u d e).data := by
    rw [sessionFileName_data]
    simp
  have hsl : '/' ∉ (sessionFileName u d e).data := by
    rw [sessionFileName_data]
    intro hm
    simp only [List.mem_append, List.mem_cons] at hm
    rcases hm with hm | hm | hm | hm | hm
    · exact hu hm
    · exact absurd hm (by decide)
    · exact hd hm
    · exact absurd hm (by decide)
    · rcases hm with hm | hm
      · revert hm; cases e <;> decide
      · exact absurd hm (by decide)
  refine ⟨fun hh => by rw [hh] at hmem; simp at hmem, hsl,
    fun hh => by rw [hh] at hmem; simp at hmem,
    fun hh => by rw [hh] at hmem; simp at hmem⟩

/-- Claim C1, counterexamples: the claim quantifies over all string values
of `userId` and `domain`, but distinct triples can collide two ways.  The
`_` join character also occurs inside components:
`getSessionFilePath("a_b","c",dev)` and `getSessionFilePath("a","b_c",dev)`
are both `.auth/a_b_c_dev.json`.  And `path.join` normalizes its result, so
`.`/`..`/`//` segments inside components collide after normalization:
`("a/./b","c",dev)` and `("a/b","c",dev)` are both `.auth/a/b_c_dev.json`,
and likewise inside `domain`. -/
theorem getSessionFilePath_collision :
    (getSessionFilePath "a_b" "c" Environment.dev
        = getSessionFilePath "a" "b_c" Environment.dev ∧
      ("a_b", "c", Environment.dev) ≠ ("a", "b_c", Environment.dev)) ∧
    (getSessionFilePath "a/./b" "c" Environment.dev
        = getSessionFilePath "a/b" "c" Environment.dev ∧
      ("a/./b", "c", Environment.dev) ≠ ("a/b", "c", Environment.dev)) ∧
    (getSessionFilePath "a" "b/./c" Environment.dev
        = getSessionFilePath "a" "b/c" Environment.dev ∧
      ("a", "b/./c", Environment.dev) ≠ ("a", "b/c", Environment.dev)) := by
  refine ⟨⟨?_, ?_⟩, ⟨?_, ?_⟩, ⟨?_, ?_⟩⟩ <;> decide

/-- Claim C1, amended: `getSessionFilePath` is deterministic (identical
triples yield the identical path — it is a pure function of its inputs), and
for a fixed `cacheDir` it is injective on triples whose `userId` and
`domain` contain no `/` (so `path.join`'s normalization cannot merge them)
and whose `userId` contains no `_` (the first `_` then isolates it; `domain`
may contain underscores, since the fixed `_dev.json`/`_staging.json`/
`_prod.json` suffixes disambiguate from the right). -/
theorem getSessionFilePath_det_and_inj (cacheDir : String) :
    (∀ u d e, getSessionFilePath u d e cacheDir = getSessionFilePath u d e cacheDir) ∧
    (∀ u₁ d₁ e₁ u₂ d₂ e₂,
      '_' ∉ u₁.data → '_' ∉ u₂.data → '/' ∉ u₁.data → '/' ∉ u₂.data →
      '/' ∉ d₁.data → '/' ∉ d₂.data →
      getSessionFilePath u₁ d₁ e₁ cacheDir = getSessionFilePath u₂ d₂ e₂ cacheDir →
      u₁ = u₂ ∧ d₁ = d₂ ∧ e₁ = e₂) := by
  refine ⟨fun _ _ _ => rfl,
    fun u₁ d₁ e₁ u₂ d₂ e₂ hu₁ hu₂ hs₁ hs₂ hd₁ hd₂ h => ?_⟩
  obtain ⟨c1, c2, c3, c4⟩ := sessionFileName_clean u₁ d₁ e₁ hs₁ hd₁
  obtain ⟨g1, g2, g3, g4⟩ := sessionFileName_clean u₂ d₂ e₂ hs₂ hd₂
  exact sessionFileName_inj hu₁ hu₂
    (pathJoin_inj_clean cacheDir c1 c2 c3 c4 g1 g2 g3 g4 h)

/-- Witness for the amended C1 theorem at concrete inputs. -/
theorem getSessionFilePath_det_and_inj_witness :
    ('_' ∉ ("user-1" : String).data) ∧ ('/' ∉ ("domain_alpha" : String).data) ∧
    (("user-1" : String) = "user-1" ∧ ("domain_alpha" : String) = "domain_alpha" ∧
      Environment.dev = Environment.dev) :=
  ⟨by decide, by decide,
   (getSessionFilePath_det_and_inj ".auth").2 "user-1" "domain_alpha" .dev
     "user-1" "domain_alpha" .dev (by decide) (by decide) (by decide) (by decide)
     (by decide) (by decide) rfl⟩

/-! ## Saving and validity (claims C3, C4) -/

/-- After `saveSession`, the canonical path holds the full serialized
record: metadata with `createdAt = now`, `expiresAt = now + ttl`, and the
storage state. -/
lemma saveSession_lookup (fs : FS) (user : TestUser) (domain : String)
    (environment : Environment) (storageState : JSValue)
    (options : Option SessionOptions) (now : Int) :
    (saveSession fs user domain environment storageState options now).1
        (getSessionFilePath user.id domain environment (optCacheDir options)) =
      some (.json (sessionFileJson
        (sessionMetadataJson user.id domain environment now (now + optTtl options))
        storageState)) := by
  simp [saveSession, saveSessionOps, applyOps, FsOp.apply, FS.write, FS.rename]

/-- Validity of a well-formed record on disk reduces to the strict
comparison `now < expiresAt`. -/
lemma isSessionValid_record {fs : FS} {userId domain : String}
    {environment : Environment} {cacheDir : String} {createdAt expiresAt now : Int}
    {storageState : JSValue}
    (h : fs (getSessionFilePath userId domain environment cacheDir) =
      some (.json (sessionFileJson
        (sessionMetadataJson userId domain environment createdAt expiresAt)
        storageState))) :
    isSessionValid fs userId domain environment now cacheDir
      = .ok (decide (now < expiresAt)) := by
  simp [isSessionValid, h, readSessionFile, sessionFileJson, sessionMetadataJson,
    JSValue.truthy, jsGetField, jsLookupField, newDate, dateGT, pure, Except.pure,
    bind, Except.bind]

/-- Claim C3: sessions have an exclusive upper bound at
`expiresAt = createdAt + ttl`.  A record saved at time `now` with the TTL
from `options` is still valid at `now + ttl - 1` and invalid at `now + ttl`
and at any later time. -/
theorem ttl_exclusive_upper_bound (fs : FS) (user : TestUser) (domain : String)
    (environment : Environment) (storageState : JSValue)
    (options : Option SessionOptions) (now : Int) :
    isSessionValid (saveSession fs user domain environment storageState options now).1
        user.id domain environment (now + optTtl options - 1) (optCacheDir options)
      = .ok true ∧
    ∀ t : Int, now + optTtl options ≤ t →
      isSessionValid (saveSession fs user domain environment storageState options now).1
          user.id domain environment t (optCacheDir options) = .ok false := by
  have hl := saveSession_lookup fs user domain environment storageState options now
  constructor
  · rw [isSessionValid_record hl]
    simp only [Except.ok.injEq, decide_eq_true_eq]
    omega
  · intro t ht
    rw [isSessionValid_record hl]
    simp only [Except.ok.injEq, decide_eq_false_iff_not, not_lt]
    omega

/-- Witness for C3: a record saved at time `1000` with TTL `60000` is valid
at `60999` and invalid at `61000`. -/
theorem ttl_exclusive_upper_bound_witness :
    isSessionValid (saveSession FS.empty ⟨"u", "u@x", Option.none⟩
        "d" Environment.dev (JSValue.obj []) (some ⟨some 60000, Option.none⟩) 1000).1
        "u" "d" Environment.dev 60999 (optCacheDir (some ⟨some 60000, Option.none⟩))
      = .ok true ∧
    isSessionValid (saveSession FS.empty ⟨"u", "u@x", Option.none⟩
        "d" Environment.dev (JSValue.obj []) (some ⟨some 60000, Option.none⟩) 1000).1
        "u" "d" Environment.dev 61000 (optCacheDir (some ⟨some 60000, Option.none⟩))
      = .ok false :=
  ⟨(ttl_exclusive_upper_bound FS.empty ⟨"u", "u@x", Option.none⟩
      "d" Environment.dev (JSValue.obj []) (some ⟨some 60000, Option.none⟩) 1000).1,
   (ttl_exclusive_upper_bound FS.empty ⟨"u", "u@x", Option.none⟩
      "d" Environment.dev (JSValue.obj []) (some ⟨some 60000, Option.none⟩) 1000).2
      61000 (by decide)⟩

/-- Claim C4: `isSessionValid` returns `false` — and never raises an error —
for every read failure: a missing file, an empty file (`JSON.parse("")`
throws, so the file reads as corrupt), malformed JSON (any unparseable
content `raw`), and a well-formed record that is already expired. -/
theorem isSessionValid_cache_miss_tolerance (fs : FS) (userId domain : String)
    (environment : Environment) (now : Int) (cacheDir : String) :
    (fs (getSessionFilePath userId domain environment cacheDir) = Option.none →
      isSessionValid fs userId domain environment now cacheDir = .ok false) ∧
    (∀ raw : String,
      fs (getSessionFilePath userId domain environment cacheDir) = some (.corrupt raw) →
      isSessionValid fs userId domain environment now cacheDir = .ok false) ∧
    (∀ (createdAt expiresAt : Int) (storageState : JSValue),
      fs (getSessionFilePath userId domain environment cacheDir) =
        some (.json (sessionFileJson
          (sessionMetadataJson userId domain environment createdAt expiresAt)
          storageState)) →
      expiresAt ≤ now →
      isSessionValid fs userId domain environment now cacheDir = .ok false) := by
  refine ⟨fun h => ?_, fun raw h => ?_, fun createdAt expiresAt storageState h hexp => ?_⟩
  · simp [isSessionValid, h, readSessionFile]
  · simp [isSessionValid, h, readSessionFile]
  · rw [isSessionValid_record h]
    simp only [Except.ok.injEq, decide_eq_false_iff_not, not_lt]
    omega

/-- Witness for C4: a missing file, the empty file, the malformed file
`"{"` and a record expired at time `5` all give `false` at time `100`. -/
theorem isSessionValid_cache_miss_tolerance_witness :
    isSessionValid FS.empty "u" "d" Environment.dev 100 ".auth" = .ok false ∧
    isSessionValid (FS.empty.write
        (getSessionFilePath "u" "d" Environment.dev ".auth") (.corrupt ""))
      "u" "d" Environment.dev 100 ".auth" = .ok false ∧
    isSessionValid (FS.empty.write
        (getSessionFilePath "u" "d" Environment.dev ".auth") (.corrupt "\x7b"))
      "u" "d" Environment.dev 100 ".auth" = .ok false ∧
    isSessionValid (FS.empty.write
        (getSessionFilePath "u" "d" Environment.dev ".auth")
        (.json (sessionFileJson (sessionMetadataJson "u" "d" Environment.dev 0 5)
          (JSValue.obj []))))
      "u" "d" Environment.dev 100 ".auth" = .ok false :=
  ⟨(isSessionValid_cache_miss_tolerance FS.empty
      "u" "d" Environment.dev 100 ".auth").1 rfl,
   (isSessionValid_cache_miss_tolerance _ "u" "d" Environment.dev 100 ".auth").2.1
      "" (by simp [FS.write]),
   (isSessionValid_cache_miss_tolerance _ "u" "d" Environment.dev 100 ".auth").2.1
      "\x7b" (by simp [FS.write]),
   (isSessionValid_cache_miss_tolerance _ "u" "d" Environment.dev 100 ".auth").2.2
      0 5 (JSValue.obj []) (by simp [FS.write]) (by decide)⟩

/-! ## The expired-session sweep (claims C5, C10) -/

instance : Membership (String × FileContent) Dir :=
  inferInstanceAs (Membership (String × FileContent) (List (String × FileContent)))

/-- Dropping the head entry when its name is the erased one. -/
lemma Dir.eraseName_cons_self {k : String} {c : FileContent} {rest : Dir}
    {n : String} (hk : k = n) :
    Dir.eraseName ((k, c) :: rest) n = rest.eraseName n := by
  simp [Dir.eraseName, hk]

/-- Keeping the head entry when its name differs from the erased one. -/
lemma Dir.eraseName_cons_ne {k : String} {c : FileContent} {rest : Dir}
    {n : String} (hk : ¬ k = n) :
    Dir.eraseName ((k, c) :: rest) n = (k, c) :: rest.eraseName n := by
  simp [Dir.eraseName, hk]

/-- Unlinking one name leaves lookups of other names unchanged. -/
lemma Dir.lookup_eraseName_ne (d : Dir) {m n : String} (h : m ≠ n) :
    (d.eraseName n).lookup m = d.lookup m := by
  induction d with
  | nil => rfl
  | cons e rest ih =>
    obtain ⟨k, c⟩ := e
    by_cases hk : k = n
    · have hkm : k ≠ m := fun hh => h (hh ▸ hk)
      rw [Dir.eraseName_cons_self hk, ih]
      simp [Dir.lookup, hkm]
    · rw [Dir.eraseName_cons_ne hk]
      by_cases hm : k = m
      · simp [Dir.lookup, hm]
      · simp [Dir.lookup, hm, ih]

/-- In a directory with distinct names, looking up an entry's name finds
that entry's content. -/
lemma Dir.lookup_of_nodup {d : Dir} {k : String} {c : FileContent}
    (hnd : (d.map Prod.fst).Nodup) (hm : (k, c) ∈ d) : d.lookup k = some c := by
  induction d with
  | nil => cases hm
  | cons e rest ih =>
    rcases List.mem_cons.mp hm with heq | hm'
    · rw [← heq]
      simp [Dir.lookup]
    · have hk : k ∈ rest.map Prod.fst := by
        exact List.mem_map_of_mem Prod.fst hm'
      have hnd' := hnd
      rw [List.map_cons, List.nodup_cons] at hnd'
      have hne : e.1 ≠ k := fun hh => hnd'.1 (hh ▸ hk)
      simp [Dir.lookup, hne, ih hnd'.2 hm']

/-- The remaining directory after the sweep loop: an entry is gone iff its
name was in the processed list and its file looked expired when read. -/
lemma sweepNames_fst (now : Int) :
    ∀ (names : List String) (dir : Dir),
      (sweepNames now dir names).1
        = dir.filter (fun e =>
            !(decide (e.1 ∈ names) && expiredHere (dir.lookup e.1) now)) := by
  intro names
  induction names with
  | nil => intro dir; simp [sweepNames]
  | cons n ns ih =>
    intro dir
    by_cases hb : expiredHere (dir.lookup n) now
    · rw [show (sweepNames now dir (n :: ns)).1
          = (sweepNames now (dir.eraseName n) ns).1 from by
        simp [sweepNames, hb]]
      rw [ih (dir.eraseName n)]
      have h2 : ∀ e ∈ dir.eraseName n,
          (!(decide (e.1 ∈ ns) && expiredHere ((dir.eraseName n).lookup e.1) now))
            = (!(decide (e.1 ∈ ns) && expiredHere (dir.lookup e.1) now)) := by
        intro e he
        have hmem := List.mem_filter.mp
          (show e ∈ List.filter (fun x => decide (x.1 ≠ n)) dir from he)
        have hne : e.1 ≠ n := of_decide_eq_true hmem.2
        rw [Dir.lookup_eraseName_ne dir hne]
      rw [List.filter_congr h2]
      have h3 : dir.eraseName n = dir.filter (fun e => !(decide (e.1 = n))) := by
        simp [Dir.eraseName]
      rw [h3, List.filter_filter]
      refine List.filter_congr fun e he => ?_
      by_cases hen : e.1 = n
      · simp [hen, hb]
      · simp [hen]
    · rw [show (sweepNames now dir (n :: ns)).1 = (sweepNames now dir ns).1 from by
        simp [sweepNames, hb]]
      rw [ih dir]
      refine List.filter_congr fun e he => ?_
      by_cases hen : e.1 = n
      · simp only [hen, hb]
        simp
      · simp [hen]

/-- The count returned by the sweep loop: how many of the processed names
looked expired when read. -/
lemma sweepNames_snd (now : Int) :
    ∀ (names : List String) (dir : Dir), names.Nodup →
      (sweepNames now dir names).2
        = (names.filter (fun n => expiredHere (dir.lookup n) now)).length := by
  intro names
  induction names with
  | nil => intro dir _; simp [sweepNames]
  | cons n ns ih =>
    intro dir hnd
    obtain ⟨hn, hns⟩ := List.nodup_cons.mp hnd
    by_cases hb : expiredHere (dir.lookup n) now
    · rw [show sweepNames now dir (n :: ns)
          = ((sweepNames now (dir.eraseName n) ns).1,
             (sweepNames now (dir.eraseName n) ns).2 + 1) from by
        simp [sweepNames, hb]]
      rw [List.filter_cons_of_pos (by simpa using hb)]
      simp only [List.length_cons]
      rw [ih (dir.eraseName n) hns]
      congr 1
      refine congrArg List.length (List.filter_congr fun m hm => ?_)
      have : m ≠ n := fun hh => hn (hh ▸ hm)
      rw [Dir.lookup_eraseName_ne dir this]
    · rw [show sweepNames now dir (n :: ns) = sweepNames now dir ns from by
        simp [sweepNames, hb]]
      rw [List.filter_cons_of_neg (by simpa using hb)]
      exact ih dir hns

/-- The deletion condition of the sweep, read off the original directory:
a `.json` entry whose content parses with a truthy `metadata` whose
`expiresAt` is a valid timestamp at or before `now`.  A corrupt file, or any
file whose `expiresAt` does not parse, never satisfies it. -/
def sweepDeletes (now : Int) (e : String × FileContent) : Bool :=
  strEndsWith e.1 ".json" && expiredHere (some e.2) now

/-- Claim C5: on a directory with distinct entry names, the sweep deletes
exactly the entries satisfying `sweepDeletes` — the `.json` files whose
content parses with a truthy `metadata` whose `expiresAt` is a valid
timestamp at or before `now` — returns their count, and leaves every corrupt
file in place (processing of later entries is unaffected). -/
theorem clearExpiredSessions_exact (dir : Dir) (now : Int)
    (hnd : (dir.map Prod.fst).Nodup) :
    (clearExpiredSessions dir now).1 = dir.filter (fun e => !(sweepDeletes now e)) ∧
    (clearExpiredSessions dir now).2 = (dir.filter (sweepDeletes now)).length ∧
    (∀ name raw, (name, FileContent.corrupt raw) ∈ dir →
      (name, FileContent.corrupt raw) ∈ (clearExpiredSessions dir now).1) := by
  have hnames : ((dir.map Prod.fst).filter (fun s => strEndsWith s ".json")).Nodup :=
    hnd.filter _
  have h1 : (clearExpiredSessions dir now).1
      = dir.filter (fun e => !(sweepDeletes now e)) := by
    rw [clearExpiredSessions, sweepNames_fst]
    refine List.filter_congr fun e he => ?_
    obtain ⟨k, c⟩ := e
    have hlk : dir.lookup k = some c := Dir.lookup_of_nodup hnd he
    by_cases hj : strEndsWith k ".json"
    · have hmem : k ∈ (dir.map Prod.fst).filter (fun s => strEndsWith s ".json") :=
        List.mem_filter.mpr ⟨List.mem_map_of_mem Prod.fst he, by simpa using hj⟩
      simp [sweepDeletes, hmem, hlk, hj]
    · have hmem : k ∉ (dir.map Prod.fst).filter (fun s => strEndsWith s ".json") :=
        fun hc => hj (by simpa using (List.mem_filter.mp hc).2)
      simp [sweepDeletes, hmem, hj]
  refine ⟨h1, ?_, ?_⟩
  · rw [clearExpiredSessions, sweepNames_snd now _ _ hnames, List.filter_filter,
      List.filter_map, List.length_map]
    refine congrArg List.length (List.filter_congr fun e he => ?_)
    obtain ⟨k, c⟩ := e
    have hlk : dir.lookup k = some c := Dir.lookup_of_nodup hnd he
    simp [sweepDeletes, hlk, Function.comp, Bool.and_comm]
  · intro name raw hm
    rw [h1]
    refine List.mem_filter.mpr ⟨hm, ?_⟩
    simp [sweepDeletes, expiredHere, getSessionMetadataVal, readSessionFile]

/-- Witness for C5: of one expired record, one live record and one corrupt
file, the sweep at time `1000` removes exactly the expired record and
returns `1`. -/
theorem clearExpiredSessions_exact_witness :
    (clearExpiredSessions
        [("u1_d_dev.json", .json (sessionFileJson
            (sessionMetadataJson "u1" "d" Environment.dev 0 100) (JSValue.obj []))),
         ("u2_d_dev.json", .json (sessionFileJson
            (sessionMetadataJson "u2" "d" Environment.dev 0 99999) (JSValue.obj []))),
         ("bad.json", .corrupt "not json")] 1000).2 = 1 ∧
    (clearExpiredSessions
        [("u1_d_dev.json", .json (sessionFileJson
            (sessionMetadataJson "u1" "d" Environment.dev 0 100) (JSValue.obj []))),
         ("u2_d_dev.json", .json (sessionFileJson
            (sessionMetadataJson "u2" "d" Environment.dev 0 99999) (JSValue.obj []))),
         ("bad.json", .corrupt "not json")] 1000).1
      = [("u2_d_dev.json", .json (sessionFileJson
            (sessionMetadataJson "u2" "d" Environment.dev 0 99999) (JSValue.obj []))),
         ("bad.json", .corrupt "not json")] :=
  have h := clearExpiredSessions_exact
    [("u1_d_dev.json", .json (sessionFileJson
        (sessionMetadataJson "u1" "d" Environment.dev 0 100) (JSValue.obj []))),
     ("u2_d_dev.json", .json (sessionFileJson
        (sessionMetadataJson "u2" "d" Environment.dev 0 99999) (JSValue.obj []))),
     ("bad.json", .corrupt "not json")] 1000 (by decide)
  ⟨by rw [h.2.1]; rfl, by rw [h.1]; rfl⟩

/-- A session record whose `expiresAt` holds a string that does not parse as
a timestamp (`new Date` on it yields an Invalid Date). -/
def sessionMetadataJsonRawExpiry (userId domain : String)
    (environment : Environment) (createdAt : Int) (expiresRaw : String) : JSValue :=
  .obj [("userId", .str (.raw userId)),
        ("domain", .str (.raw domain)),
        ("environment", .str (.raw environment.toStr)),
        ("createdAt", .str (.iso createdAt)),
        ("expiresAt", .str (.raw expiresRaw))]

/-- Claim C10: a record whose `metadata.expiresAt` does not parse as a
timestamp is never reused (`isSessionValid` gives `false`, since a
comparison against an Invalid Date is `false`) — yet `clearExpiredSessions`
neither deletes nor counts it (`Invalid Date <= now` is also `false`), so
only `clearSession` removes it. -/
theorem invalid_expiry_unusable_but_unswept (u d : String) (e : Environment)
    (c now : Int) (s : String) (state : JSValue) (fs : FS)
    (hfs : fs (getSessionFilePath u d e) =
      some (.json (sessionFileJson (sessionMetadataJsonRawExpiry u d e c s) state))) :
    isSessionValid fs u d e now = .ok false ∧
    clearExpiredSessions
        [(sessionFileName u d e,
          .json (sessionFileJson (sessionMetadataJsonRawExpiry u d e c s) state))] now
      = ([(sessionFileName u d e,
          .json (sessionFileJson (sessionMetadataJsonRawExpiry u d e c s) state))], 0) ∧
    clearSession fs u d e Option.none (getSessionFilePath u d e) = Option.none := by
  refine ⟨?_, ?_, ?_⟩
  · simp [isSessionValid, hfs, readSessionFile, sessionFileJson,
      sessionMetadataJsonRawExpiry, JSValue.truthy, jsGetField, jsLookupField,
      newDate, dateGT, pure, Except.pure, bind, Except.bind]
  · by_cases hj : strEndsWith (sessionFileName u d e) ".json"
    · simp [clearExpiredSessions, hj, sweepNames, Dir.lookup, expiredHere,
        getSessionMetadataVal, readSessionFile, jsOptField, jsLookupField,
        sessionFileJson, sessionMetadataJsonRawExpiry, JSValue.truthy, jsFieldD,
        newDate, dateLE]
    · simp [clearExpiredSessions, hj, sweepNames]
  · simp [clearSession, FS.remove, optCacheDir]

/-- Witness for C10 at a concrete record with `expiresAt = "not-a-date"`. -/
theorem invalid_expiry_unusable_but_unswept_witness :
    isSessionValid (FS.empty.write (getSessionFilePath "u" "d" Environment.dev)
        (.json (sessionFileJson
          (sessionMetadataJsonRawExpiry "u" "d" Environment.dev 0 "not-a-date")
          (JSValue.obj []))))
      "u" "d" Environment.dev 99999999 = .ok false ∧
    clearExpiredSessions
        [(sessionFileName "u" "d" Environment.dev,
          .json (sessionFileJson
            (sessionMetadataJsonRawExpiry "u" "d" Environment.dev 0 "not-a-date")
            (JSValue.obj [])))] 99999999
      = ([(sessionFileName "u" "d" Environment.dev,
          .json (sessionFileJson
            (sessionMetadataJsonRawExpiry "u" "d" Environment.dev 0 "not-a-date")
            (JSValue.obj [])))], 0) :=
  have h := invalid_expiry_unusable_but_unswept "u" "d" Environment.dev 0 99999999
    "not-a-date" (JSValue.obj [])
    (FS.empty.write (getSessionFilePath "u" "d" Environment.dev)
      (.json (sessionFileJson
        (sessionMetadataJsonRawExpiry "u" "d" Environment.dev 0 "not-a-date")
        (JSValue.obj []))))
    (by simp [FS.write])
  ⟨h.1, h.2.1⟩

/-! ## Round-trip fidelity of the storage state (claim C6) -/

/-- The serialization of a `sameSite` tag determines the tag. -/
lemma sameSite_toJson_inj : Function.Injective SameSite.toJson := by
  intro a b h
  cases a <;> cases b <;> simp_all [SameSite.toJson]

/-- The serialization of a cookie determines the cookie. -/
lemma cookie_toJson_inj : Function.Injective Cookie.toJson := by
  intro a b h
  cases a
  cases b
  simp only [Cookie.toJson, JSValue.obj.injEq, List.cons.injEq, Prod.mk.injEq,
    JSValue.str.injEq, JSString.raw.injEq, JSValue.num.injEq, JSValue.bool.injEq,
    sameSite_toJson_inj.eq_iff, true_and, and_true] at h
  simp [Cookie.mk.injEq]
  tauto

/-- The serialization of a `localStorage` entry determines the entry. -/
lemma localStorageEntry_toJson_inj : Function.Injective LocalStorageEntry.toJson := by
  intro a b h
  cases a
  cases b
  simp only [LocalStorageEntry.toJson, JSValue.obj.injEq, List.cons.injEq,
    Prod.mk.injEq, JSValue.str.injEq, JSString.raw.injEq, true_and, and_true] at h
  simp [LocalStorageEntry.mk.injEq]
  tauto

/-- The serialization of a per-origin state determines it. -/
lemma originState_toJson_inj : Function.Injective OriginState.toJson := by
  intro a b h
  cases a
  cases b
  simp only [OriginState.toJson, JSValue.obj.injEq, List.cons.injEq, Prod.mk.injEq,
    JSValue.str.injEq, JSString.raw.injEq, JSValue.arr.injEq,
    (List.map_injective_iff.mpr localStorageEntry_toJson_inj).eq_iff,
    true_and, and_true] at h
  simp [OriginState.mk.injEq]
  tauto

/-- The serialization of a whole storage state determines it: equality of
the round-tripped JSON is deep equality of the states. -/
lemma storageState_toJson_inj : Function.Injective StorageState.toJson := by
  intro a b h
  cases a
  cases b
  simp only [StorageState.toJson, JSValue.obj.injEq, List.cons.injEq, Prod.mk.injEq,
    JSValue.arr.injEq,
    (List.map_injective_iff.mpr cookie_toJson_inj).eq_iff,
    (List.map_injective_iff.mpr originState_toJson_inj).eq_iff,
    true_and, and_true] at h
  simp [StorageState.mk.injEq]
  tauto

/-- Claim C6: `saveSession` for a key followed by `getStorageState` on the
returned path yields exactly the JSON of the storage state that was passed
— and that JSON determines the storage state (deep equality), so the blob
round-trips unchanged. -/
theorem storageState_roundtrip (fs : FS) (user : TestUser) (domain : String)
    (environment : Environment) (s : StorageState)
    (options : Option SessionOptions) (now : Int) :
    getStorageStateVal
        ((saveSession fs user domain environment s.toJson options now).1
          ((saveSession fs user domain environment s.toJson options now).2))
      = some s.toJson ∧
    Function.Injective StorageState.toJson := by
  refine ⟨?_, storageState_toJson_inj⟩
  have hl := saveSession_lookup fs user domain environment s.toJson options now
  rw [show (saveSession fs user domain environment s.toJson options now).2
      = getSessionFilePath user.id domain environment (optCacheDir options) from rfl]
  rw [hl]
  simp [getStorageStateVal, readSessionFile, jsOptField, jsLookupField,
    sessionFileJson, sessionMetadataJson, StorageState.toJson]

/-- Witness for C6 at a one-cookie storage state. -/
theorem storageState_roundtrip_witness :
    getStorageStateVal
        ((saveSession FS.empty ⟨"u", "u@x", Option.none⟩ "d" Environment.dev
            (StorageState.mk [⟨"sid", "s3cret", "x.com", "/", 0, true, true, .lax⟩]
              []).toJson Option.none 0).1
          ((saveSession FS.empty ⟨"u", "u@x", Option.none⟩ "d" Environment.dev
            (StorageState.mk [⟨"sid", "s3cret", "x.com", "/", 0, true, true, .lax⟩]
              []).toJson Option.none 0).2))
      = some (StorageState.mk [⟨"sid", "s3cret", "x.com", "/", 0, true, true, .lax⟩]
          []).toJson ∧
    StorageState.mk [] [] = StorageState.mk [] [] :=
  ⟨(storageState_roundtrip FS.empty ⟨"u", "u@x", Option.none⟩ "d" Environment.dev
      (StorageState.mk [⟨"sid", "s3cret", "x.com", "/", 0, true, true, .lax⟩] [])
      Option.none 0).1,
   (storageState_roundtrip FS.empty ⟨"u", "u@x", Option.none⟩ "d" Environment.dev
      (StorageState.mk [] []) Option.none 0).2 rfl⟩

/-! ## Atomicity of `saveSession` (claim C7) -/

/-- Appending the `.tmp` suffix never yields the original path. -/
lemma append_tmp_ne (s : String) : s ++ ".tmp" ≠ s := by
  intro h
  have hlen := congrArg String.length h
  rw [String.length_append] at hlen
  have h4 : (".tmp" : String).length = 4 := rfl
  omega

/-- Claim C7: `saveSession` is atomic with respect to partial writes.  Its
trace writes the fully serialized record to the temporary sibling path
(canonical path plus the `.tmp` suffix, which differs from the canonical
path) and its final operation renames the temporary path onto the canonical
path; after every proper prefix of the trace the canonical path still holds
its old content, and after the full trace it holds the complete record. -/
theorem saveSession_atomic (fs : FS) (user : TestUser) (domain : String)
    (environment : Environment) (storageState : JSValue)
    (options : Option SessionOptions) (now : Int) :
    (∀ k : Nat,
      k < (saveSessionOps user domain environment storageState options now).length →
      applyOps fs
          ((saveSessionOps user domain environment storageState options now).take k)
          (getSessionFilePath user.id domain environment (optCacheDir options))
        = fs (getSessionFilePath user.id domain environment (optCacheDir options))) ∧
    (saveSession fs user domain environment storageState options now).1
        (getSessionFilePath user.id domain environment (optCacheDir options))
      = some (.json (sessionFileJson
          (sessionMetadataJson user.id domain environment now (now + optTtl options))
          storageState)) ∧
    getSessionFilePath user.id domain environment (optCacheDir options) ++ ".tmp"
      ≠ getSessionFilePath user.id domain environment (optCacheDir options) ∧
    FsOp.write
        (getSessionFilePath user.id domain environment (optCacheDir options) ++ ".tmp")
        (.json (sessionFileJson
          (sessionMetadataJson user.id domain environment now (now + optTtl options))
          storageState))
      ∈ saveSessionOps user domain environment storageState options now ∧
    (saveSessionOps user domain environment storageState options now).getLast?
      = some (.rename
          (getSessionFilePath user.id domain environment (optCacheDir options) ++ ".tmp")
          (getSessionFilePath user.id domain environment (optCacheDir options))) := by
  refine ⟨?_, saveSession_lookup fs user domain environment storageState options now,
    append_tmp_ne _, ?_, ?_⟩
  · intro k hk
    have hlen : (saveSessionOps user domain environment storageState options now).length
        = 3 := rfl
    rw [hlen] at hk
    interval_cases k
    · rfl
    · rfl
    · show (fs.write
          (getSessionFilePath user.id domain environment (optCacheDir options) ++ ".tmp")
          (.json (sessionFileJson
            (sessionMetadataJson user.id domain environment now (now + optTtl options))
            storageState)))
          (getSessionFilePath user.id domain environment (optCacheDir options))
        = fs (getSessionFilePath user.id domain environment (optCacheDir options))
      rw [FS.write, if_neg]
      exact fun hh => append_tmp_ne _ hh.symm
  · simp [saveSessionOps]
  · rfl

/-- Witness for C7: the intermediate-state property at a concrete save,
with the prefix of length `2` (after the temp-file write, before the
rename), where the canonical path is still absent. -/
theorem saveSession_atomic_witness :
    applyOps FS.empty
        ((saveSessionOps ⟨"u", "u@x", Option.none⟩ "d" Environment.dev
          (JSValue.obj []) Option.none 0).take 2)
        (getSessionFilePath "u" "d" Environment.dev (optCacheDir Option.none))
      = FS.empty (getSessionFilePath "u" "d" Environment.dev (optCacheDir Option.none)) :=
  (saveSession_atomic FS.empty ⟨"u", "u@x", Option.none⟩ "d" Environment.dev
    (JSValue.obj []) Option.none 0).1 2 (by decide)

/-! ## Worst-status merge in the reporter (claim C8) -/

/-- Claim C8: `mergeTestRunResults` deduplicates by test case identifier
with the worst status winning, under the priority ordering
`failed (0) < skipped (1) < passed (2)`: for two runs carrying the same
identifier, `passed`+`failed` merges to the `failed` record,
`failed`+`skipped` to the `failed` record, and `skipped`+`passed` to the
`skipped` record. -/
theorem merge_worst_status (fid fts : String) (a b : TestRunResult)
    (r1 r2 : TestCaseResult) (ha : a.results = [r1]) (hb : b.results = [r2])
    (hid : r1.testCaseId = r2.testCaseId) :
    ((r1.status = .passed ∧ r2.status = .failed) →
      (mergeTestRunResults fid fts [a, b]).results = [r2]) ∧
    ((r1.status = .failed ∧ r2.status = .skipped) →
      (mergeTestRunResults fid fts [a, b]).results = [r1]) ∧
    ((r1.status = .skipped ∧ r2.status = .passed) →
      (mergeTestRunResults fid fts [a, b]).results = [r1]) := by
  refine ⟨fun ⟨h1, h2⟩ => ?_, fun ⟨h1, h2⟩ => ?_, fun ⟨h1, h2⟩ => ?_⟩ <;>
    simp [mergeTestRunResults, mergeStep, ResultMap.get, ResultMap.set,
      statusPriority, ha, hb, hid, h1, h2]

/-- Witness for C8: merging a `passed` and a `failed` result for `TC-1`
keeps the `failed` record. -/
theorem merge_worst_status_witness :
    (mergeTestRunResults "f" "t"
        [⟨"r1", "t1", Environment.dev, "dom", "app",
            [{ testCaseId := "TC-1", status := .passed, duration := 5 }]⟩,
         ⟨"r2", "t2", Environment.dev, "dom", "app",
            [{ testCaseId := "TC-1", status := .failed, duration := 7 }]⟩]).results
      = [{ testCaseId := "TC-1", status := .failed, duration := 7 }] :=
  (merge_worst_status "f" "t"
    ⟨"r1", "t1", Environment.dev, "dom", "app",
      [{ testCaseId := "TC-1", status := .passed, duration := 5 }]⟩
    ⟨"r2", "t2", Environment.dev, "dom", "app",
      [{ testCaseId := "TC-1", status := .failed, duration := 7 }]⟩
    { testCaseId := "TC-1", status := .passed, duration := 5 }
    { testCaseId := "TC-1", status := .failed, duration := 7 }
    rfl rfl rfl).1 ⟨rfl, rfl⟩

/-! ## Parseable files of the wrong shape (claim C9) -/

/-- Claim C9: the swallow-and-return-`false` tolerance covers only files
that fail to read or to parse.  A file whose content is well-formed JSON of
the wrong shape — a (truthy) top-level string, number or array — makes
`isSessionValid` throw: `sessionFile.metadata` is `undefined` and the
further `.expiresAt` access raises a `TypeError`. -/
theorem isSessionValid_throws_on_wrong_shape :
    isSessionValid (FS.empty.write (getSessionFilePath "u" "d" Environment.dev)
        (.json (.str (.raw "abc")))) "u" "d" Environment.dev 0
      = .error .typeError ∧
    isSessionValid (FS.empty.write (getSessionFilePath "u" "d" Environment.dev)
        (.json (.num 5))) "u" "d" Environment.dev 0
      = .error .typeError ∧
    isSessionValid (FS.empty.write (getSessionFilePath "u" "d" Environment.dev)
        (.json (.arr []))) "u" "d" Environment.dev 0
      = .error .typeError :=
  ⟨rfl, rfl, rfl⟩

/-! ## The cache-hit path of the Orchestrator (claim C2) -/

/-- A valid stored session record for `(user-1, domain-alpha, dev)`: one
authentication cookie, expiring at `86400000`. -/
def c2record : JSValue :=
  sessionFileJson
    (sessionMetadataJson "user-1" "domain-alpha" Environment.dev 0 86400000)
    (StorageState.mk [⟨"sid", "s3cret", "domain-alpha.com", "/", 0, true, true,
      SameSite.lax⟩] []).toJson

/-- A cache directory holding exactly that record at its canonical path. -/
def c2fs : FS :=
  FS.empty.write (getSessionFilePath "user-1" "domain-alpha" Environment.dev)
    (.json c2record)

/-- The storage state of the fresh, still unauthenticated context the page
belongs to: no cookies, no origins. -/
def c2ctx : JSValue := (StorageState.mk [] []).toJson

/-- Claim C2 evaluated on the code: on a cache hit at time `1000` (the
stored record is valid until `86400000`), `loginToApp` runs
`context.storageState({ path: sessionPath })`, which saves the fresh
context's empty storage state over the stored record — the cache-hit path
is not side-effect-free and does not load the persisted state.  The same
scenario through `startAuthenticatedSession` leaves the filesystem
untouched, as the claim demands. -/
theorem loginToApp_cachehit_overwrites :
    loginToApp c2fs c2ctx (JSValue.obj []) ⟨"user-1", "user1@x", Option.none⟩
        "domain-alpha" Environment.dev false 1000
      = .ok (c2fs.write (getSessionFilePath "user-1" "domain-alpha" Environment.dev)
          (.json c2ctx), false) ∧
    c2fs (getSessionFilePath "user-1" "domain-alpha" Environment.dev)
      = some (.json c2record) ∧
    (c2fs.write (getSessionFilePath "user-1" "domain-alpha" Environment.dev)
        (.json c2ctx)) (getSessionFilePath "user-1" "domain-alpha" Environment.dev)
      = some (.json c2ctx) ∧
    FileContent.json c2ctx ≠ FileContent.json c2record ∧
    startAuthenticatedSession c2fs c2ctx (JSValue.obj [])
        ⟨"user-1", "user1@x", Option.none⟩ "domain-alpha" Environment.dev false 1000
      = .ok (c2fs, false) := by
  refine ⟨rfl, rfl, rfl, ?_, rfl⟩
  simp [c2ctx, c2record, StorageState.toJson, sessionFileJson, sessionMetadataJson]

end Testwright
